import Mathlib

/-!
Verification of the robot-manipulator forward-kinematics core
(`src/Manipulator.cpp`).

The embedding keeps the scalar type abstract: `K` is any linear ordered field,
and the `<cmath>` functions `sin`, `cos`, `sqrt` used by the source are carried
as an explicit `TrigOps K` record, so every theorem below holds in particular
for `K = ℝ` with the real trigonometric functions.  Concrete evaluations in
witnesses instantiate `K = ℚ` with simple test interpretations of the trig
record, which is legitimate because the statements quantify over the record.

The registry `std::map<int, MovableLink*> links_` is embedded as an
association list from ids to *possibly null* stored pointers: a `none` value
models a null `MovableLink*`, which really arises in the source because
`operator[]` on an absent key fills the mapped pointer slot with null.

The chain-resolution loop of the source
`while (current_id != 0 && links_.count(current_id))` has no cycle detection,
so it need not terminate.  The embedding runs it on `links.length + 1` units
of fuel: the loop state is only `current_id` and the transition
`current_id ↦ prevId` is deterministic, so if the loop makes more than
`links.length` iterations it has revisited an id and loops forever.  Running
out of that fuel is therefore reported as the dedicated result `diverge`.
-/

set_option linter.unusedSectionVars false

namespace RobotArm

/-- Modelled from the spec: the polymorphic link variants are declared in
`Manipulator.h`, which is not among the sources.  The spec records a gripper
aperture angle and a camera capture state as the specialization payloads that
are irrelevant to kinematics. -/
inductive LinkKind (K : Type) where
  | plain : LinkKind K
  | gripper (aperture : K) : LinkKind K
  | camera (photos : Nat) : LinkKind K
deriving DecidableEq

/-- Modelled from the spec: the `MovableLink` class itself lives in the missing
header.  Per the spec a link holds an immutable `id`, a fixed length `r`, a
mutable `(pitch, yaw, roll)` orientation and an immutable `prevId`
back-reference (`0` meaning the fixed base). -/
structure MovableLink (K : Type) where
  id : Int
  r : K
  pitch : K
  yaw : K
  roll : K
  prevId : Int
  kind : LinkKind K
deriving DecidableEq

/-- The registry `std::map<int, MovableLink*> links_`, as an association list
from ids to possibly-null stored pointers. -/
structure Manipulator (K : Type) where
  links : List (Int × Option (MovableLink K))
deriving DecidableEq

/-- The `<cmath>` functions used by the source, kept as parameters of the
model; all theorems hold for every interpretation, in particular for the real
`sin`, `cos` and `sqrt`. -/
structure TrigOps (K : Type) where
  sin : K → K
  cos : K → K
  sqrt : K → K

variable {K : Type} [LinearOrderedField K]

/-- The constant from `#define M_PI 3.14159265358979323846` in the source. -/
def M_PI : K := 314159265358979323846 / 100000000000000000000

/-- Key search in the association list; `links_.find` / `links_.count` /
`links_.at` are all phrased through this. -/
def findVal : List (Int × Option (MovableLink K)) → Int → Option (Option (MovableLink K))
  | [], _ => none
  | (k, v) :: rest, i => if k = i then some v else findVal rest i

/-- Lookup of the stored pointer for an id: `none` when the key is absent,
`some none` when the key maps to a null pointer. -/
def lookupLink (m : Manipulator K) (id : Int) : Option (Option (MovableLink K)) :=
  findVal m.links id

/-- The presence test `links_.count(id)` (a `std::map` holds at most one entry
per key). -/
def countId (m : Manipulator K) (id : Int) : Bool :=
  (lookupLink m id).isSome

/-- `Manipulator::addLink`: reject a duplicate id (report, no change), else
insert the link under its own id.  The `Bool` result records whether the
"already exists" diagnostic was emitted. -/
def addLink (m : Manipulator K) (link : MovableLink K) : Manipulator K × Bool :=
  if countId m link.id = true then (m, true)
  else (⟨(link.id, some link) :: m.links⟩, false)

/-- In-place mutation of the object a stored pointer points to, as seen through
the registry: the value stored under `id` is replaced. -/
def updateLink (m : Manipulator K) (id : Int) (l : MovableLink K) : Manipulator K :=
  ⟨m.links.map fun p => if p.1 = id then (p.1, some l) else p⟩

/-- Whether `dynamic_cast<Gripper*>` succeeds on the link. -/
def isGripperKind : LinkKind K → Bool
  | .gripper _ => true
  | _ => false

/-- Whether `dynamic_cast<Camera*>` succeeds on the link. -/
def isCameraKind : LinkKind K → Bool
  | .camera _ => true
  | _ => false

/-- `Manipulator::openGripper`.  `links_[id]` inserts a null pointer when the
id is absent; `dynamic_cast` on null fails, so the "not a gripper" diagnostic
(the `true` flag of the result) is emitted.  On a stored gripper, `g->open(angle)`
is modelled from the spec as setting the gripper aperture angle. -/
def openGripper (m : Manipulator K) (id : Int) (angle : K) : Manipulator K × Bool :=
  match lookupLink m id with
  | none => (⟨(id, none) :: m.links⟩, true)
  | some none => (m, true)
  | some (some l) =>
    match l.kind with
    | .gripper _ => (updateLink m id { l with kind := .gripper angle }, false)
    | _ => (m, true)

/-- `Manipulator::closeGripper`; `g->close()` is modelled from the spec as
resetting the gripper aperture angle. -/
def closeGripper (m : Manipulator K) (id : Int) : Manipulator K × Bool :=
  match lookupLink m id with
  | none => (⟨(id, none) :: m.links⟩, true)
  | some none => (m, true)
  | some (some l) =>
    match l.kind with
    | .gripper _ => (updateLink m id { l with kind := .gripper 0 }, false)
    | _ => (m, true)

/-- `Manipulator::takePhoto`; `c->take_a_photo()` is modelled from the spec as
bumping the camera capture state. -/
def takePhoto (m : Manipulator K) (id : Int) : Manipulator K × Bool :=
  match lookupLink m id with
  | none => (⟨(id, none) :: m.links⟩, true)
  | some none => (m, true)
  | some (some l) =>
    match l.kind with
    | .camera n => (updateLink m id { l with kind := .camera (n + 1) }, false)
    | _ => (m, true)

/-- Outcome of the chain-resolution loop of `calculatePosition`
(lines 79–93 of the source). -/
inductive WalkResult where
  | ok (chain : List Int)
  | broken (chain : List Int) (cur : Int)
  | nullDeref
  | outOfFuel
deriving DecidableEq

/-- The loop `while (current_id != 0 && links_.count(current_id))` pushing ids
and stepping to `getPrevId()`.  A present key holding a null pointer makes the
source dereference null, modelled as `nullDeref`.  The loop itself has no
bound; the caller supplies fuel. -/
def walkChain (m : Manipulator K) : Nat → Int → List Int → WalkResult
  | 0, _, _ => .outOfFuel
  | fuel + 1, cur, acc =>
    if cur = 0 then .ok acc
    else
      match lookupLink m cur with
      | none => .broken acc cur
      | some none => .nullDeref
      | some (some l) => walkChain m fuel l.prevId (acc ++ [cur])

/-- Componentwise accumulation `x += dx; y += dy; z += dz`. -/
def addDisp (p d : K × K × K) : K × K × K :=
  (p.1 + d.1, p.2.1 + d.2.1, p.2.2 + d.2.2)

/-- The per-link relative displacement
`(r·cos(yaw)·sin(pitch), r·sin(yaw)·sin(pitch), r·cos(pitch))`. -/
def displacement (T : TrigOps K) (l : MovableLink K) : K × K × K :=
  (l.r * T.cos l.yaw * T.sin l.pitch,
   l.r * T.sin l.yaw * T.sin l.pitch,
   l.r * T.cos l.pitch)

/-- Re-summation of displacements along a list of ids, as done by the inner
loop of `checkCollision` (and implicitly by the accumulators of the main
loop).  `none` models the two crash modes of the source on a bad id:
`links_.at` throwing on an absent key, and dereferencing a stored null. -/
def sumDisplacements (T : TrigOps K) (m : Manipulator K) :
    List Int → K × K × K → Option (K × K × K)
  | [], pos => some pos
  | cid :: rest, pos =>
    match lookupLink m cid with
    | some (some l) => sumDisplacements T m rest (addDisp pos (displacement T l))
    | _ => none

/-- The distance `sqrt(pow(cx-px,2) + pow(cy-py,2) + pow(cz-pz,2))`. -/
def dist (T : TrigOps K) (p q : K × K × K) : K :=
  T.sqrt ((p.1 - q.1) ^ 2 + (p.2.1 - q.2.1) ^ 2 + (p.2.2 - q.2.2) ^ 2)

/-- The outer loop of `Manipulator::checkCollision` over the earlier indices
`idxs`: recompute the absolute position of each earlier index from the root
and fail (`some false`) as soon as one lies within `0.1` of `pos`. -/
def collisionScan (T : TrigOps K) (m : Manipulator K) (c : List Int)
    (pos : K × K × K) : List Nat → Option Bool
  | [] => some true
  | j :: rest =>
    match sumDisplacements T m (c.take (j + 1)) (0, 0, 0) with
    | none => none
    | some q => if dist T pos q < 1 / 10 then some false else collisionScan T m c pos rest

/-- `Manipulator::checkCollision(chain, current_index, x, y, z)`. -/
def checkCollision (T : TrigOps K) (m : Manipulator K) (c : List Int)
    (i : Nat) (pos : K × K × K) : Option Bool :=
  collisionScan T m c pos (List.range i)

/-- Error kinds signalled by `calculatePosition` through `std::cerr`; each one
makes the source return the degenerate tuple `(0,0,0)`. -/
inductive CalcError where
  | incompleteChain
  | domainViolation
  | collision
deriving DecidableEq

/-- Observable outcome of `calculatePosition`: `crash` for an assertion
failure / null dereference / `at` throw, `diverge` for the unbounded chain
loop never exiting, `err e` for a reported error with the degenerate return,
`ok p` for a normally computed position. -/
inductive CalcResult (K : Type) where
  | diverge
  | crash
  | err (e : CalcError)
  | ok (p : K × K × K)
deriving DecidableEq

/-- The tuple actually handed back to the caller, when one is handed back at
all: every reported error returns `(0,0,0)`. -/
def returnedTuple : CalcResult K → Option (K × K × K)
  | .diverge => none
  | .crash => none
  | .err _ => some (0, 0, 0)
  | .ok p => some p

/-- The main loop of `calculatePosition` (lines 99–133): for each chain entry,
domain-check id 1 against `M_PI/2`, accumulate the displacement, and for every
index past the first run the collision check against the just-updated
position. -/
def calcLoop (T : TrigOps K) (m : Manipulator K) (c : List Int) :
    List Int → Nat → K × K × K → CalcResult K
  | [], _, pos => .ok pos
  | cid :: rest, i, pos =>
    match lookupLink m cid with
    | some (some l) =>
      if cid = 1 ∧ (M_PI / 2 < l.pitch ∨ M_PI / 2 < l.yaw) then
        .err .domainViolation
      else
        if 0 < i then
          match checkCollision T m c i (addDisp pos (displacement T l)) with
          | none => .crash
          | some false => .err .collision
          | some true => calcLoop T m c rest (i + 1) (addDisp pos (displacement T l))
        else
          calcLoop T m c rest (i + 1) (addDisp pos (displacement T l))
    | _ => .crash

/-- `Manipulator::calculatePosition(id)`: assert the id is registered, resolve
the chain, reverse it to run root-to-target, and fold the kinematics loop from
the base position `(0,0,0)`.  See the module comment for the fuel. -/
def calculatePosition (T : TrigOps K) (m : Manipulator K) (id : Int) : CalcResult K :=
  if countId m id = true then
    match walkChain m (m.links.length + 1) id [] with
    | .ok ch => calcLoop T m ch.reverse ch.reverse 0 (0, 0, 0)
    | .broken _ _ => .err .incompleteChain
    | .nullDeref => .crash
    | .outOfFuel => .diverge
  else .crash

/-! Concrete fixtures used by witnesses and counterexamples; the scalar type is
`ℚ` and the trig record is a simple test interpretation (`cos ≡ 1`,
`sin = id`, `sqrt = id`), which the generic theorems allow. -/

/-- Test interpretation of the trig record over `ℚ`. -/
def ratTrig : TrigOps ℚ :=
  ⟨id, fun _ => 1, id⟩

/-- Plain link fixture: id `i`, length `r`, angles `(p, y)`, roll `ro`, parent `pr`. -/
def mkLink (i : Int) (r p y ro : ℚ) (pr : Int) : MovableLink ℚ :=
  ⟨i, r, p, y, ro, pr, .plain⟩

/-- Two-link fixture: link 1 on the base, link 2 on link 1; in-domain angles
and well-separated positions under `ratTrig`. -/
def validM : Manipulator ℚ :=
  ⟨[(1, some (mkLink 1 1 1 0 0 0)), (2, some (mkLink 2 1 2 0 0 1))]⟩

/-- The spec §8 collision example: link 2 has length `0`, so it resolves to
exactly the position of link 1. -/
def colM : Manipulator ℚ :=
  ⟨[(1, some (mkLink 1 1 1 0 0 0)), (2, some (mkLink 2 0 1 0 0 1))]⟩

/-- Cyclic-chain fixture: `prevId` of 2 is 3 and of 3 is 2, never reaching 0. -/
def cycleM : Manipulator ℚ :=
  ⟨[(2, some (mkLink 2 1 1 0 0 3)), (3, some (mkLink 3 1 1 0 0 2))]⟩

/-- Broken-chain fixture: link 5 points at absent id 7. -/
def brokenM : Manipulator ℚ :=
  ⟨[(5, some (mkLink 5 1 1 0 0 7))]⟩

/-- Link 1 with a negative pitch, outside `[0, π/2]` but not above `π/2`. -/
def negM : Manipulator ℚ :=
  ⟨[(1, some (mkLink 1 1 (-1) 0 0 0))]⟩

/-- Link 1 with pitch `2 > π/2`. -/
def badM : Manipulator ℚ :=
  ⟨[(1, some (mkLink 1 1 2 0 0 0))]⟩

/-- The empty registry. -/
def emptyM : Manipulator ℚ := ⟨[]⟩

/-- A registry in which the base id 0 itself is registered as a link. -/
def baseM : Manipulator ℚ :=
  ⟨[(0, some (mkLink 0 1 1 0 0 0))]⟩

/-- `validM` with different roll values stored in both links and nothing else
changed. -/
def rollM : Manipulator ℚ :=
  ⟨[(1, some (mkLink 1 1 1 0 5 0)), (2, some (mkLink 2 1 2 0 7 1))]⟩

/-- Fields of two links agree except possibly the roll. -/
def exceptRoll (l l2 : MovableLink K) : Prop :=
  l.id = l2.id ∧ l.r = l2.r ∧ l.pitch = l2.pitch ∧ l.yaw = l2.yaw ∧
    l.prevId = l2.prevId ∧ l.kind = l2.kind

/-- Stored pointers agree except possibly the roll of the pointed-to link. -/
def exceptRollO : Option (MovableLink K) → Option (MovableLink K) → Prop
  | none, none => True
  | some l, some l2 => exceptRoll l l2
  | _, _ => False

/-- Registry entry lists agree except possibly roll values. -/
def exceptRollL : List (Int × Option (MovableLink K)) → List (Int × Option (MovableLink K)) → Prop
  | [], [] => True
  | p :: ps, q :: qs => p.1 = q.1 ∧ exceptRollO p.2 q.2 ∧ exceptRollL ps qs
  | _, _ => False

/-- Lookup results agree except possibly roll values. -/
def exceptRollOO : Option (Option (MovableLink K)) → Option (Option (MovableLink K)) → Prop
  | none, none => True
  | some v, some v2 => exceptRollO v v2
  | _, _ => False

/-- Two registry states identical except for the roll values stored in any
links. -/
def exceptRollM (m m2 : Manipulator K) : Prop :=
  exceptRollL m.links m2.links

/-! ## Theorems -/

/-- C3: the chain-resolution walk of `calculatePosition` does *not* terminate
on a registry whose `prevId` references form a cycle never reaching the base:
on `cycleM` (2 ↦ 3 ↦ 2) the loop runs out of any amount of fuel, i.e. the
unbounded `while` loop of the source never exits, and the model reports the
divergence. -/
theorem walkChain_cycle_diverges :
    (∀ (fuel : Nat) (acc : List Int), walkChain cycleM fuel 2 acc = .outOfFuel) ∧
    calculatePosition ratTrig cycleM 2 = .diverge := by
  have key : ∀ (fuel : Nat) (cur : Int), cur = 2 ∨ cur = 3 →
      ∀ acc, walkChain cycleM fuel cur acc = .outOfFuel := by
    intro fuel
    induction fuel with
    | zero => intro cur _ acc; rfl
    | succ n ih =>
      intro cur hcur acc
      rcases hcur with rfl | rfl
      · have h : walkChain cycleM (n + 1) 2 acc = walkChain cycleM n 3 (acc ++ [2]) := by
          simp [walkChain, cycleM, lookupLink, findVal, mkLink]
        rw [h]
        exact ih 3 (Or.inr rfl) _
      · have h : walkChain cycleM (n + 1) 3 acc = walkChain cycleM n 2 (acc ++ [3]) := by
          simp [walkChain, cycleM, lookupLink, findVal, mkLink]
        rw [h]
        exact ih 2 (Or.inl rfl) _
  refine ⟨fun fuel acc => key fuel 2 (Or.inl rfl) acc, ?_⟩
  have hc : countId cycleM 2 = true := by decide
  have hw : walkChain cycleM (cycleM.links.length + 1) 2 [] = .outOfFuel :=
    key _ 2 (Or.inl rfl) []
  simp only [calculatePosition, hc, if_true, hw]

/-- C5: when the chain walk exits at an id that is neither 0 nor a registry
key, `calculatePosition` reports `IncompleteChain` and hands back the
degenerate tuple `(0,0,0)` — no crash, no divergence. -/
theorem incompleteChain_of_broken_walk (T : TrigOps K) (m : Manipulator K) (id : Int)
    (acc : List Int) (bad : Int)
    (hid : countId m id = true)
    (hwalk : walkChain m (m.links.length + 1) id [] = .broken acc bad) :
    calculatePosition T m id = .err .incompleteChain ∧
      returnedTuple (calculatePosition T m id) = some ((0 : K), 0, 0) := by
  have h : calculatePosition T m id = .err .incompleteChain := by
    simp only [calculatePosition, hid, if_true, hwalk]
  exact ⟨h, by rw [h]; rfl⟩

/-- Witness for C5 at the broken fixture (5 points to the absent id 7). -/
theorem incompleteChain_of_broken_walk_witness :
    countId brokenM 5 = true ∧
    walkChain brokenM (brokenM.links.length + 1) 5 [] = .broken [5] 7 ∧
    calculatePosition ratTrig brokenM 5 = .err .incompleteChain := by
  refine ⟨by decide, by decide, ?_⟩
  exact (incompleteChain_of_broken_walk ratTrig brokenM 5 [5] 7 (by decide) (by decide)).1

/-- C6 counterexample: on the empty registry the claimed call
`calculatePosition 0` does not return `(0,0,0)`; the entry assertion
`assert(links_.count(id))` fails, so the call crashes and returns nothing. -/
theorem base_on_empty_registry_crashes :
    calculatePosition ratTrig emptyM 0 = .crash ∧
    returnedTuple (calculatePosition ratTrig emptyM 0) = none := by
  exact ⟨by decide, by decide⟩

/-- C6 amended: whenever id 0 itself is registered (so the entry assertion
passes), `calculatePosition` with target 0 returns the base position
`(0,0,0)` for every registry state. -/
theorem base_returns_origin_of_present (T : TrigOps K) (m : Manipulator K)
    (h : countId m 0 = true) :
    calculatePosition T m 0 = .ok (0, 0, 0) := by
  have hw : walkChain m (m.links.length + 1) 0 [] = .ok [] := by
    simp [walkChain]
  simp only [calculatePosition, h, if_true, hw, List.reverse_nil]
  rfl

/-- Witness for the amended C6: the fixture registering id 0. -/
theorem base_returns_origin_of_present_witness :
    countId baseM 0 = true ∧ calculatePosition ratTrig baseM 0 = .ok (0, 0, 0) :=
  ⟨by decide, base_returns_origin_of_present ratTrig baseM (by decide)⟩

/-- C7: `addLink` on an id that is already a registry key reports the
duplicate (the `true` flag) and is a no-op: the registry value — in
particular the originally stored link with its orientation — is unchanged. -/
theorem addLink_duplicate_noop (m : Manipulator K) (link : MovableLink K)
    (v : Option (MovableLink K)) (h : lookupLink m link.id = some v) :
    addLink m link = (m, true) ∧ lookupLink (addLink m link).1 link.id = some v := by
  have hc : countId m link.id = true := by rw [countId, h]; rfl
  have h1 : addLink m link = (m, true) := by
    unfold addLink
    rw [if_pos hc]
  refine ⟨h1, ?_⟩
  rw [h1]
  exact h

/-- Witness for C7: re-adding id 1 with a different orientation leaves
`validM` untouched. -/
theorem addLink_duplicate_noop_witness :
    lookupLink validM (mkLink 1 2 0 0 9 0).id = some (some (mkLink 1 1 1 0 0 0)) ∧
    addLink validM (mkLink 1 2 0 0 9 0) = (validM, true) := by
  refine ⟨by decide, ?_⟩
  exact (addLink_duplicate_noop validM (mkLink 1 2 0 0 9 0) (some (mkLink 1 1 1 0 0 0))
    (by decide)).1

/-- C8: calling a capability operation with an id absent from the registry
mutates the registry: `links_[id]` inserts the id mapped to a null pointer, the
id then counts as present (a later `addLink` of a link carrying that id is
rejected as a duplicate), and the operation reports the wrong-capability
condition (the `true` flag — the source has no unknown-id report on this
path). -/
theorem absent_id_ops_insert_null (m : Manipulator K) (id : Int) (a : K)
    (h : lookupLink m id = none) :
    openGripper m id a = (⟨(id, none) :: m.links⟩, true) ∧
    closeGripper m id = (⟨(id, none) :: m.links⟩, true) ∧
    takePhoto m id = (⟨(id, none) :: m.links⟩, true) ∧
    countId (⟨(id, none) :: m.links⟩ : Manipulator K) id = true ∧
    ∀ l : MovableLink K, l.id = id →
      addLink (⟨(id, none) :: m.links⟩ : Manipulator K) l =
        (⟨(id, none) :: m.links⟩, true) := by
  have hcount : countId (⟨(id, none) :: m.links⟩ : Manipulator K) id = true := by
    simp [countId, lookupLink, findVal]
  refine ⟨?_, ?_, ?_, hcount, ?_⟩
  · simp only [openGripper, h]
  · simp only [closeGripper, h]
  · simp only [takePhoto, h]
  · intro l hl
    unfold addLink
    rw [hl, if_pos hcount]

/-- Witness for C8: id 9 is absent from `validM`. -/
theorem absent_id_ops_insert_null_witness :
    lookupLink validM 9 = none ∧
    takePhoto validM 9 = (⟨(9, none) :: validM.links⟩, true) ∧
    countId (⟨(9, none) :: validM.links⟩ : Manipulator ℚ) 9 = true := by
  have h := absent_id_ops_insert_null validM 9 1 (by decide)
  exact ⟨by decide, h.2.2.1, h.2.2.2.1⟩

/-- C10: a capability operation addressed to a registered link that does not
support the capability reports "not a <capability>" (the `true` flag) and
changes nothing: the registry, and hence every link state, is returned
untouched. -/
theorem wrong_capability_noop (m : Manipulator K) (id : Int) (l : MovableLink K) (a : K)
    (h : lookupLink m id = some (some l)) :
    (isGripperKind l.kind = false →
      openGripper m id a = (m, true) ∧ closeGripper m id = (m, true)) ∧
    (isCameraKind l.kind = false → takePhoto m id = (m, true)) := by
  refine ⟨fun hg => ⟨?_, ?_⟩, fun hc => ?_⟩
  · cases hk : l.kind with
    | plain => simp only [openGripper, h, hk]
    | gripper ap => rw [hk] at hg; exact absurd hg (by simp [isGripperKind])
    | camera n => simp only [openGripper, h, hk]
  · cases hk : l.kind with
    | plain => simp only [closeGripper, h, hk]
    | gripper ap => rw [hk] at hg; exact absurd hg (by simp [isGripperKind])
    | camera n => simp only [closeGripper, h, hk]
  · cases hk : l.kind with
    | plain => simp only [takePhoto, h, hk]
    | gripper ap => simp only [takePhoto, h, hk]
    | camera n => rw [hk] at hc; exact absurd hc (by simp [isCameraKind])

/-- Witness for C10: link 1 of `validM` is a plain link, so both gripper
operations and the camera operation refuse it without touching the registry. -/
theorem wrong_capability_noop_witness :
    lookupLink validM 1 = some (some (mkLink 1 1 1 0 0 0)) ∧
    openGripper validM 1 2 = (validM, true) ∧
    takePhoto validM 1 = (validM, true) := by
  have h := wrong_capability_noop validM 1 (mkLink 1 1 1 0 0 0) 2 (by decide)
  exact ⟨by decide, (h.1 (by decide)).1, h.2 (by decide)⟩

/-- Key search returns roll-equivalent results on roll-equivalent entry
lists. -/
theorem findVal_exceptRoll :
    ∀ {ls ls2 : List (Int × Option (MovableLink K))}, exceptRollL ls ls2 →
      ∀ cid, exceptRollOO (findVal ls cid) (findVal ls2 cid) := by
  intro ls
  induction ls with
  | nil =>
    intro ls2 h cid
    cases ls2 with
    | nil => trivial
    | cons q qs => exact absurd h (by simp [exceptRollL])
  | cons p ps ih =>
    intro ls2 h cid
    cases ls2 with
    | nil => exact absurd h (by simp [exceptRollL])
    | cons q qs =>
      obtain ⟨k, v⟩ := p
      obtain ⟨k2, v2⟩ := q
      obtain ⟨hk, hv, ht⟩ := h
      simp only at hk
      subst hk
      by_cases hc : k = cid
      · subst hc
        simpa [findVal, exceptRollOO] using hv
      · simpa [findVal, hc] using ih ht cid

/-- Registry lookup returns roll-equivalent results on roll-equivalent
registries. -/
theorem lookupLink_exceptRoll {m m2 : Manipulator K} (h : exceptRollM m m2) (cid : Int) :
    exceptRollOO (lookupLink m cid) (lookupLink m2 cid) :=
  findVal_exceptRoll h cid

/-- Presence of a key is unaffected by roll values. -/
theorem countId_exceptRoll {m m2 : Manipulator K} (h : exceptRollM m m2) (cid : Int) :
    countId m cid = countId m2 cid := by
  have hoo := lookupLink_exceptRoll h cid
  rw [countId, countId]
  cases h1 : lookupLink m cid <;> cases h2 : lookupLink m2 cid <;>
    rw [h1, h2] at hoo <;> simp_all [exceptRollOO]

/-- Roll-equivalent registries have the same number of entries. -/
theorem length_exceptRoll {m m2 : Manipulator K} (h : exceptRollM m m2) :
    m.links.length = m2.links.length := by
  have key : ∀ (ls ls2 : List (Int × Option (MovableLink K))), exceptRollL ls ls2 →
      ls.length = ls2.length := by
    intro ls
    induction ls with
    | nil =>
      intro ls2 h2
      cases ls2 with
      | nil => rfl
      | cons q qs => exact absurd h2 (by simp [exceptRollL])
    | cons p ps ih =>
      intro ls2 h2
      cases ls2 with
      | nil => exact absurd h2 (by simp [exceptRollL])
      | cons q qs => simpa using ih qs h2.2.2
  exact key _ _ h

/-- The chain walk only reads `prevId`, so roll values cannot change it. -/
theorem walkChain_exceptRoll {m m2 : Manipulator K} (h : exceptRollM m m2) :
    ∀ (fuel : Nat) (cur : Int) (acc : List Int),
      walkChain m fuel cur acc = walkChain m2 fuel cur acc := by
  intro fuel
  induction fuel with
  | zero => intro cur acc; rfl
  | succ n ih =>
    intro cur acc
    by_cases h0 : cur = 0
    · subst h0; rfl
    · have hoo := lookupLink_exceptRoll h cur
      simp only [walkChain]
      rw [if_neg h0, if_neg h0]
      cases h1 : lookupLink m cur with
      | none =>
        cases h2 : lookupLink m2 cur with
        | none => rfl
        | some v2 => rw [h1, h2] at hoo; simp [exceptRollOO] at hoo
      | some v =>
        cases h2 : lookupLink m2 cur with
        | none => rw [h1, h2] at hoo; simp [exceptRollOO] at hoo
        | some v2 =>
          rw [h1, h2] at hoo
          cases v with
          | none =>
            cases v2 with
            | none => rfl
            | some l2 => simp [exceptRollOO, exceptRollO] at hoo
          | some l =>
            cases v2 with
            | none => simp [exceptRollOO, exceptRollO] at hoo
            | some l2 =>
              have hprev : l.prevId = l2.prevId := hoo.2.2.2.2.1
              show walkChain m n l.prevId (acc ++ [cur]) =
                walkChain m2 n l2.prevId (acc ++ [cur])
              rw [hprev]
              exact ih l2.prevId (acc ++ [cur])

/-- The displacement formula reads `r`, `pitch` and `yaw` only, never the
roll. -/
theorem displacement_exceptRoll (T : TrigOps K) {l l2 : MovableLink K}
    (h : exceptRoll l l2) : displacement T l = displacement T l2 := by
  obtain ⟨-, hr, hp, hy, -, -⟩ := h
  rw [displacement, displacement, hr, hp, hy]

/-- Re-summed positions are unaffected by roll values. -/
theorem sumDisplacements_exceptRoll (T : TrigOps K) {m m2 : Manipulator K}
    (h : exceptRollM m m2) :
    ∀ (ids : List Int) (pos : K × K × K),
      sumDisplacements T m ids pos = sumDisplacements T m2 ids pos := by
  intro ids
  induction ids with
  | nil => intro pos; rfl
  | cons cid rest ih =>
    intro pos
    have hoo := lookupLink_exceptRoll h cid
    simp only [sumDisplacements]
    cases h1 : lookupLink m cid with
    | none =>
      cases h2 : lookupLink m2 cid with
      | none => rfl
      | some v2 => rw [h1, h2] at hoo; simp [exceptRollOO] at hoo
    | some v =>
      cases h2 : lookupLink m2 cid with
      | none => rw [h1, h2] at hoo; simp [exceptRollOO] at hoo
      | some v2 =>
        rw [h1, h2] at hoo
        cases v with
        | none =>
          cases v2 with
          | none => rfl
          | some l2 => simp [exceptRollOO, exceptRollO] at hoo
        | some l =>
          cases v2 with
          | none => simp [exceptRollOO, exceptRollO] at hoo
          | some l2 =>
            show sumDisplacements T m rest (addDisp pos (displacement T l)) =
              sumDisplacements T m2 rest (addDisp pos (displacement T l2))
            rw [displacement_exceptRoll T hoo]
            exact ih _

/-- The collision scan is unaffected by roll values. -/
theorem collisionScan_exceptRoll (T : TrigOps K) {m m2 : Manipulator K}
    (h : exceptRollM m m2) (c : List Int) (pos : K × K × K) :
    ∀ idxs : List Nat, collisionScan T m c pos idxs = collisionScan T m2 c pos idxs := by
  intro idxs
  induction idxs with
  | nil => rfl
  | cons j rest ih =>
    simp only [collisionScan, sumDisplacements_exceptRoll T h]
    cases hq : sumDisplacements T m2 (c.take (j + 1)) (0, 0, 0) with
    | none => rfl
    | some q =>
      by_cases hd : dist T pos q < 1 / 10 <;> simp [hd, ih]

/-- The collision check is unaffected by roll values. -/
theorem checkCollision_exceptRoll (T : TrigOps K) {m m2 : Manipulator K}
    (h : exceptRollM m m2) (c : List Int) (i : Nat) (pos : K × K × K) :
    checkCollision T m c i pos = checkCollision T m2 c i pos :=
  collisionScan_exceptRoll T h c pos (List.range i)

/-- The kinematics loop is unaffected by roll values. -/
theorem calcLoop_exceptRoll (T : TrigOps K) {m m2 : Manipulator K}
    (h : exceptRollM m m2) (c : List Int) :
    ∀ (suf : List Int) (i : Nat) (pos : K × K × K),
      calcLoop T m c suf i pos = calcLoop T m2 c suf i pos := by
  intro suf
  induction suf with
  | nil => intro i pos; rfl
  | cons cid rest ih =>
    intro i pos
    have hoo := lookupLink_exceptRoll h cid
    simp only [calcLoop]
    cases h1 : lookupLink m cid with
    | none =>
      cases h2 : lookupLink m2 cid with
      | none => rfl
      | some v2 => rw [h1, h2] at hoo; simp [exceptRollOO] at hoo
    | some v =>
      cases h2 : lookupLink m2 cid with
      | none => rw [h1, h2] at hoo; simp [exceptRollOO] at hoo
      | some v2 =>
        rw [h1, h2] at hoo
        cases v with
        | none =>
          cases v2 with
          | none => rfl
          | some l2 => simp [exceptRollOO, exceptRollO] at hoo
        | some l =>
          cases v2 with
          | none => simp [exceptRollOO, exceptRollO] at hoo
          | some l2 =>
            obtain ⟨-, hr, hp, hy, -, -⟩ := hoo
            have hdisp : displacement T l = displacement T l2 := by
              rw [displacement, displacement, hr, hp, hy]
            show (if cid = 1 ∧ (M_PI / 2 < l.pitch ∨ M_PI / 2 < l.yaw) then
                .err .domainViolation
              else
                if 0 < i then
                  match checkCollision T m c i (addDisp pos (displacement T l)) with
                  | none => .crash
                  | some false => .err .collision
                  | some true => calcLoop T m c rest (i + 1) (addDisp pos (displacement T l))
                else
                  calcLoop T m c rest (i + 1) (addDisp pos (displacement T l))) =
              (if cid = 1 ∧ (M_PI / 2 < l2.pitch ∨ M_PI / 2 < l2.yaw) then
                .err .domainViolation
              else
                if 0 < i then
                  match checkCollision T m2 c i (addDisp pos (displacement T l2)) with
                  | none => .crash
                  | some false => .err .collision
                  | some true => calcLoop T m2 c rest (i + 1) (addDisp pos (displacement T l2))
                else
                  calcLoop T m2 c rest (i + 1) (addDisp pos (displacement T l2)))
            rw [hdisp, hp, hy, checkCollision_exceptRoll T h]
            by_cases hcond : cid = 1 ∧ (M_PI / 2 < l2.pitch ∨ M_PI / 2 < l2.yaw)
            · rw [if_pos hcond, if_pos hcond]
            · rw [if_neg hcond, if_neg hcond]
              by_cases hi : 0 < i
              · rw [if_pos hi, if_pos hi]
                cases checkCollision T m2 c i (addDisp pos (displacement T l2)) with
                | none => rfl
                | some b => cases b with
                  | false => rfl
                  | true => exact ih _ _
              · rw [if_neg hi, if_neg hi]
                exact ih _ _

/-- C9: the roll component of link orientations has no effect on computed
positions: two registries identical except for stored roll values give the
same `calculatePosition` result at every target id. -/
theorem roll_has_no_effect (T : TrigOps K) (m m2 : Manipulator K)
    (h : exceptRollM m m2) (id : Int) :
    calculatePosition T m id = calculatePosition T m2 id := by
  simp only [calculatePosition, countId_exceptRoll h id, length_exceptRoll h,
    walkChain_exceptRoll h]
  by_cases hc : countId m2 id = true
  · rw [if_pos hc, if_pos hc]
    cases hw : walkChain m2 (m2.links.length + 1) id [] with
    | ok ch => exact calcLoop_exceptRoll T h ch.reverse ch.reverse 0 (0, 0, 0)
    | broken acc bad => rfl
    | nullDeref => rfl
    | outOfFuel => rfl
  · rw [if_neg hc, if_neg hc]

/-- Witness for C9: `rollM` stores rolls 5 and 7 where `validM` stores 0, and
both registries compute the same position for link 2. -/
theorem roll_has_no_effect_witness :
    exceptRollM validM rollM ∧
    calculatePosition ratTrig validM 2 = calculatePosition ratTrig rollM 2 := by
  have h : exceptRollM validM rollM := by
    simp [exceptRollM, exceptRollL, exceptRollO, exceptRoll, validM, rollM, mkLink]
  exact ⟨h, roll_has_no_effect ratTrig validM rollM h 2⟩

/-- Every id pushed by a successful chain walk was dereferenced by the loop,
so beyond what was already accumulated it resolves to a stored non-null
link. -/
theorem walkChain_resolvable (m : Manipulator K) :
    ∀ (fuel : Nat) (cur : Int) (acc ch : List Int),
      walkChain m fuel cur acc = .ok ch →
      ∀ cid ∈ ch, cid ∈ acc ∨ ∃ l, lookupLink m cid = some (some l) := by
  intro fuel
  induction fuel with
  | zero => intro cur acc ch h; exact absurd h (by simp [walkChain])
  | succ n ih =>
    intro cur acc ch h cid hcid
    simp only [walkChain] at h
    by_cases h0 : cur = 0
    · rw [if_pos h0] at h
      have := WalkResult.ok.inj h
      subst this
      exact Or.inl hcid
    · rw [if_neg h0] at h
      cases h1 : lookupLink m cur with
      | none => rw [h1] at h; exact absurd h (by simp)
      | some v =>
        cases v with
        | none => rw [h1] at h; exact absurd h (by simp)
        | some l =>
          rw [h1] at h
          rcases ih l.prevId (acc ++ [cur]) ch h cid hcid with hmem | hres2
          · rcases List.mem_append.1 hmem with hmem2 | hmem2
            · exact Or.inl hmem2
            · have : cid = cur := by simpa using hmem2
              subst this
              exact Or.inr ⟨l, h1⟩
          · exact Or.inr hres2

/-- Summation of displacements splits along list concatenation. -/
theorem sumDisplacements_append (T : TrigOps K) (m : Manipulator K) :
    ∀ (xs ys : List Int) (pos : K × K × K),
      sumDisplacements T m (xs ++ ys) pos =
        (sumDisplacements T m xs pos).bind fun q => sumDisplacements T m ys q := by
  intro xs
  induction xs with
  | nil => intro ys pos; rfl
  | cons cid rest ih =>
    intro ys pos
    simp only [List.cons_append, sumDisplacements]
    cases lookupLink m cid with
    | none => rfl
    | some v =>
      cases v with
      | none => rfl
      | some l => exact ih ys _

/-- Summation succeeds on a list of ids that all resolve to stored non-null
links. -/
theorem sumDisplacements_total (T : TrigOps K) (m : Manipulator K) :
    ∀ ids : List Int, (∀ cid ∈ ids, ∃ l, lookupLink m cid = some (some l)) →
      ∀ pos, ∃ q, sumDisplacements T m ids pos = some q := by
  intro ids
  induction ids with
  | nil => intro _ pos; exact ⟨pos, rfl⟩
  | cons cid rest ih =>
    intro hres pos
    obtain ⟨l, hl⟩ := hres cid (by simp)
    simp only [sumDisplacements, hl]
    exact ih (fun c2 hc2 => hres c2 (by simp [hc2])) _

/-- The collision scan cannot crash when every scanned re-summation
succeeds. -/
theorem collisionScan_isSome (T : TrigOps K) (m : Manipulator K) (c : List Int)
    (pos : K × K × K) :
    ∀ idxs : List Nat,
      (∀ j ∈ idxs, ∃ q, sumDisplacements T m (c.take (j + 1)) (0, 0, 0) = some q) →
      (collisionScan T m c pos idxs).isSome = true := by
  intro idxs
  induction idxs with
  | nil => intro _; rfl
  | cons j rest ih =>
    intro hs
    obtain ⟨q, hq⟩ := hs j (by simp)
    simp only [collisionScan, hq]
    by_cases hd : dist T pos q < 1 / 10
    · rw [if_pos hd]; rfl
    · rw [if_neg hd]
      exact ih fun j2 hj2 => hs j2 (by simp [hj2])

/-- The collision scan passes when every scanned position is far enough. -/
theorem collisionScan_passes (T : TrigOps K) (m : Manipulator K) (c : List Int)
    (pos : K × K × K) :
    ∀ idxs : List Nat,
      (∀ j ∈ idxs, ∃ q, sumDisplacements T m (c.take (j + 1)) (0, 0, 0) = some q) →
      (∀ j ∈ idxs, ∀ q, sumDisplacements T m (c.take (j + 1)) (0, 0, 0) = some q →
        ¬ dist T pos q < 1 / 10) →
      collisionScan T m c pos idxs = some true := by
  intro idxs
  induction idxs with
  | nil => intro _ _; rfl
  | cons j rest ih
  =>
    intro hs hfar
    obtain ⟨q, hq⟩ := hs j (by simp)
    simp only [collisionScan, hq]
    rw [if_neg (hfar j (by simp) q hq)]
    exact ih (fun j2 hj2 => hs j2 (by simp [hj2])) (fun j2 hj2 => hfar j2 (by simp [hj2]))

/-- A failed collision scan exhibits a scanned index whose recomputed
position lies within the threshold. -/
theorem collisionScan_fails_elim (T : TrigOps K) (m : Manipulator K) (c : List Int)
    (pos : K × K × K) :
    ∀ idxs : List Nat, collisionScan T m c pos idxs = some false →
      ∃ j ∈ idxs, ∃ q, sumDisplacements T m (c.take (j + 1)) (0, 0, 0) = some q ∧
        dist T pos q < 1 / 10 := by
  intro idxs
  induction idxs with
  | nil => intro h; exact absurd h (by simp [collisionScan])
  | cons j rest ih =>
    intro h
    simp only [collisionScan] at h
    cases hq : sumDisplacements T m (c.take (j + 1)) (0, 0, 0) with
    | none => rw [hq] at h; exact absurd h (by simp)
    | some q =>
      simp only [hq] at h
      by_cases hd : dist T pos q < 1 / 10
      · exact ⟨j, by simp, q, hq, hd⟩
      · rw [if_neg hd] at h
        obtain ⟨j2, hj2, q2, hq2, hd2⟩ := ih h
        exact ⟨j2, by simp [hj2], q2, hq2, hd2⟩

/-- The collision scan fails as soon as one scanned index lies within the
threshold (provided the scan does not crash first). -/
theorem collisionScan_fails_intro (T : TrigOps K) (m : Manipulator K) (c : List Int)
    (pos : K × K × K) :
    ∀ idxs : List Nat,
      (∀ j ∈ idxs, ∃ q, sumDisplacements T m (c.take (j + 1)) (0, 0, 0) = some q) →
      ∀ j ∈ idxs, ∀ q, sumDisplacements T m (c.take (j + 1)) (0, 0, 0) = some q →
        dist T pos q < 1 / 10 →
        collisionScan T m c pos idxs = some false := by
  intro idxs
  induction idxs with
  | nil => intro _ j hj; exact absurd hj (by simp)
  | cons j0 rest ih =>
    intro hs j hj q hq hd
    obtain ⟨q0, hq0⟩ := hs j0 (by simp)
    simp only [collisionScan, hq0]
    by_cases hd0 : dist T pos q0 < 1 / 10
    · rw [if_pos hd0]
    · rw [if_neg hd0]
      rcases List.mem_cons.1 hj with rfl | hj2
      · rw [hq0] at hq
        have := Option.some.inj hq
        subst this
        exact absurd hd hd0
      · exact ih (fun j2 hj2 => hs j2 (by simp [hj2])) j hj2 q hq hd

/-- One step of the kinematics loop: from the entries of `c.drop k` the head
`cid` is a member of `c`, `k` is in range, the take/drop bookkeeping advances,
and the accumulated position extends by the displacement of `cid`. -/
theorem chain_step (c : List Int) (cid : Int) (rest : List Int)
    (k : Nat) (hdrop : c.drop k = cid :: rest) :
    k < c.length ∧ cid ∈ c ∧ c.take (k + 1) = c.take k ++ [cid] ∧
      c.drop (k + 1) = rest := by
  have hk : k < c.length := by
    by_contra hle
    push_neg at hle
    rw [List.drop_eq_nil_of_le hle] at hdrop
    exact absurd hdrop (by simp)
  have hmem : cid ∈ c := List.drop_subset k c (by rw [hdrop]; simp)
  have htake : c.take (k + 1) = c.take k ++ [cid] := by
    rw [List.take_add c k 1, hdrop]
    rfl
  have hdrop2 : c.drop (k + 1) = rest := by
    have := List.drop_drop 1 k c
    rw [hdrop] at this
    rw [← this]
    rfl
  exact ⟨hk, hmem, htake, hdrop2⟩

/-- When every chain id resolves, the domain check passes wherever id 1
occurs, and all pairs of recomputed positions stay at least `0.1` apart, the
kinematics loop runs to completion and returns the accumulated sum of
displacements. -/
theorem calcLoop_ok (T : TrigOps K) (m : Manipulator K) (c : List Int)
    (hres : ∀ cid ∈ c, ∃ l, lookupLink m cid = some (some l))
    (hdom : ∀ l, (1 : Int) ∈ c → lookupLink m 1 = some (some l) →
      ¬ (M_PI / 2 < l.pitch ∨ M_PI / 2 < l.yaw))
    (hcol : ∀ i j : Nat, j < i → i < c.length →
      ∀ pi pj : K × K × K,
        sumDisplacements T m (c.take (i + 1)) (0, 0, 0) = some pi →
        sumDisplacements T m (c.take (j + 1)) (0, 0, 0) = some pj →
        ¬ dist T pi pj < 1 / 10) :
    ∀ (suf : List Int) (k : Nat) (acc : K × K × K),
      c.drop k = suf →
      sumDisplacements T m (c.take k) (0, 0, 0) = some acc →
      ∃ p, sumDisplacements T m c (0, 0, 0) = some p ∧
        calcLoop T m c suf k acc = .ok p := by
  intro suf
  induction suf with
  | nil =>
    intro k acc hdrop hsum
    have hlen : c.length ≤ k := List.drop_eq_nil_iff.1 hdrop
    rw [List.take_of_length_le hlen] at hsum
    exact ⟨acc, hsum, rfl⟩
  | cons cid rest ih =>
    intro k acc hdrop hsum
    obtain ⟨hk, hmem, htake, hdrop2⟩ := chain_step c cid rest k hdrop
    obtain ⟨l, hl⟩ := hres cid hmem
    have hcond : ¬ (cid = 1 ∧ (M_PI / 2 < l.pitch ∨ M_PI / 2 < l.yaw)) := by
      rintro ⟨rfl, hbad⟩
      exact hdom l hmem hl hbad
    have hsum2 : sumDisplacements T m (c.take (k + 1)) (0, 0, 0) =
        some (addDisp acc (displacement T l)) := by
      rw [htake, sumDisplacements_append T m _ _ _, hsum]
      show sumDisplacements T m [cid] acc = _
      simp only [sumDisplacements, hl]
    have hstep : calcLoop T m c (cid :: rest) k acc =
        calcLoop T m c rest (k + 1) (addDisp acc (displacement T l)) := by
      simp only [calcLoop, hl]
      rw [if_neg hcond]
      by_cases hi : 0 < k
      · rw [if_pos hi]
        have hs : ∀ j ∈ List.range k,
            ∃ q, sumDisplacements T m (c.take (j + 1)) (0, 0, 0) = some q :=
          fun j _ => sumDisplacements_total T m _
            (fun c2 hc2 => hres c2 (List.take_subset _ _ hc2)) _
        have hscan : checkCollision T m c k (addDisp acc (displacement T l)) = some true := by
          rw [checkCollision]
          exact collisionScan_passes T m c _ (List.range k) hs
            fun j hj q hq => hcol k j (List.mem_range.1 hj) hk _ q hsum2 hq
        rw [hscan]
      · rw [if_neg hi]
    rw [hstep]
    exact ih (k + 1) _ hdrop2 hsum2

/-- C1: on a registered target whose chain resolves to the base, with the
base-attached link (id 1, where it occurs in the chain) inside its angular
domain and all pairwise recomputed positions at distance at least `0.1`,
`calculatePosition` returns the componentwise sum of the per-link spherical
displacements along the root-to-target chain, accumulated from the base
position `(0,0,0)`. -/
theorem calculatePosition_sums_displacements (T : TrigOps K) (m : Manipulator K)
    (id : Int) (ch : List Int)
    (hid : countId m id = true)
    (hwalk : walkChain m (m.links.length + 1) id [] = .ok ch)
    (hdom : ∀ l, (1 : Int) ∈ ch → lookupLink m 1 = some (some l) →
      0 ≤ l.pitch ∧ l.pitch ≤ M_PI / 2 ∧ 0 ≤ l.yaw ∧ l.yaw ≤ M_PI / 2)
    (hcol : ∀ i j : Nat, j < i → i < ch.length →
      ∀ pi pj : K × K × K,
        sumDisplacements T m (ch.reverse.take (i + 1)) (0, 0, 0) = some pi →
        sumDisplacements T m (ch.reverse.take (j + 1)) (0, 0, 0) = some pj →
        1 / 10 ≤ dist T pi pj) :
    ∃ p, sumDisplacements T m ch.reverse (0, 0, 0) = some p ∧
      calculatePosition T m id = .ok p := by
  have hres : ∀ cid ∈ ch.reverse, ∃ l, lookupLink m cid = some (some l) := by
    intro cid hcid
    rcases walkChain_resolvable m _ id [] ch hwalk cid (List.mem_reverse.1 hcid) with
      hmem | hres2
    · exact absurd hmem (by simp)
    · exact hres2
  obtain ⟨p, hp, hloop⟩ := calcLoop_ok T m ch.reverse hres
    (fun l h1 hl => by
      have hb := hdom l (List.mem_reverse.1 h1) hl
      rintro (hpch | hych)
      · exact absurd hb.2.1 (not_le.2 hpch)
      · exact absurd hb.2.2.2 (not_le.2 hych))
    (fun i j hji hi pi pj hpi hpj => by
      rw [List.length_reverse] at hi
      exact not_lt.2 (hcol i j hji hi pi pj hpi hpj))
    ch.reverse 0 (0, 0, 0) (by simp) rfl
  refine ⟨p, hp, ?_⟩
  simp only [calculatePosition, hid, if_true, hwalk]
  exact hloop

/-- Witness for C1 at the two-link fixture: the chain of link 2 is `[1, 2]`
and the returned position is the accumulated displacement sum `(3, 0, 2)`
under the test trig interpretation. -/
theorem calculatePosition_sums_displacements_witness :
    calculatePosition ratTrig validM 2 = .ok (3, 0, 2) := by
  have hsum1 : sumDisplacements ratTrig validM (([2, 1] : List Int).reverse.take 1)
      (0, 0, 0) = some (1, 0, 1) := by
    norm_num [sumDisplacements, lookupLink, findVal, validM, mkLink, addDisp,
      displacement, ratTrig]
  have hsum2 : sumDisplacements ratTrig validM (([2, 1] : List Int).reverse.take 2)
      (0, 0, 0) = some (3, 0, 2) := by
    norm_num [sumDisplacements, lookupLink, findVal, validM, mkLink, addDisp,
      displacement, ratTrig]
  obtain ⟨p, hp, hres⟩ := calculatePosition_sums_displacements ratTrig validM 2 [2, 1]
    (by decide) (by decide)
    (fun l h1 hl => by
      have hl2 : lookupLink validM 1 = some (some (mkLink 1 1 1 0 0 0)) := rfl
      rw [hl2] at hl
      have := Option.some.inj (Option.some.inj hl)
      subst this
      refine ⟨by norm_num [mkLink], by norm_num [mkLink, M_PI], by norm_num [mkLink],
        by norm_num [mkLink, M_PI]⟩)
    (fun i j hji hi pi pj hpi hpj => by
      have hlen : ([2, 1] : List Int).length = 2 := rfl
      rw [hlen] at hi
      obtain rfl : i = 1 := by omega
      obtain rfl : j = 0 := by omega
      rw [hsum2] at hpi
      rw [hsum1] at hpj
      have hpi2 := Option.some.inj hpi
      have hpj2 := Option.some.inj hpj
      subst hpi2
      subst hpj2
      norm_num [dist, ratTrig])
  have hch : sumDisplacements ratTrig validM (([2, 1] : List Int).reverse) (0, 0, 0) =
      some (3, 0, 2) := by
    norm_num [sumDisplacements, lookupLink, findVal, validM, mkLink, addDisp,
      displacement, ratTrig]
  rw [hch] at hp
  have := Option.some.inj hp
  subst this
  exact hres

/-- When id 1 still lies ahead in the loop and its stored link violates an
upper angular bound, the loop cannot finish normally: it aborts with either
the domain violation at id 1 or a collision at an earlier index. -/
theorem calcLoop_aborts_of_bad_base (T : TrigOps K) (m : Manipulator K) (c : List Int)
    (hres : ∀ cid ∈ c, ∃ l, lookupLink m cid = some (some l))
    (l1 : MovableLink K) (h1 : lookupLink m 1 = some (some l1))
    (hbad : M_PI / 2 < l1.pitch ∨ M_PI / 2 < l1.yaw) :
    ∀ suf : List Int, suf ⊆ c → ∀ (k : Nat) (acc : K × K × K), (1 : Int) ∈ suf →
      calcLoop T m c suf k acc = .err .domainViolation ∨
      calcLoop T m c suf k acc = .err .collision := by
  intro suf
  induction suf with
  | nil => intro _ k acc hmem; exact absurd hmem (by simp)
  | cons cid rest ih =>
    intro hsub k acc hmem
    obtain ⟨l, hl⟩ := hres cid (hsub (by simp))
    by_cases hc1 : cid = 1
    · subst hc1
      rw [h1] at hl
      have := (Option.some.inj (Option.some.inj hl)).symm
      subst this
      left
      simp only [calcLoop, h1]
      rw [if_pos (And.intro (by trivial) hbad)]
    · have hmem2 : (1 : Int) ∈ rest := by
        rcases List.mem_cons.1 hmem with h2 | h2
        · exact absurd h2.symm hc1
        · exact h2
      have hcond : ¬ (cid = 1 ∧ (M_PI / 2 < l.pitch ∨ M_PI / 2 < l.yaw)) := by
        rintro ⟨rfl, -⟩
        exact hc1 rfl
      have hsub2 : rest ⊆ c := fun x hx => hsub (by simp [hx])
      simp only [calcLoop, hl]
      rw [if_neg hcond]
      by_cases hi : 0 < k
      · rw [if_pos hi]
        have hs : ∀ j ∈ List.range k,
            ∃ q, sumDisplacements T m (c.take (j + 1)) (0, 0, 0) = some q :=
          fun j _ => sumDisplacements_total T m _
            (fun c2 hc2 => hres c2 (List.take_subset _ _ hc2)) _
        have hcc := collisionScan_isSome T m c (addDisp acc (displacement T l))
          (List.range k) hs
        cases hscan : collisionScan T m c (addDisp acc (displacement T l))
            (List.range k) with
        | none => rw [hscan] at hcc; exact absurd hcc (by simp)
        | some b =>
          rw [show checkCollision T m c k (addDisp acc (displacement T l)) =
            some b from hscan]
          cases b with
          | false => right; rfl
          | true => exact ih hsub2 (k + 1) _ hmem2
      · rw [if_neg hi]
        exact ih hsub2 (k + 1) _ hmem2

/-- A domain-violation abort can only be produced while processing id 1, with
its stored link exceeding one of the upper angular bounds. -/
theorem calcLoop_dv_elim (T : TrigOps K) (m : Manipulator K) (c : List Int) :
    ∀ (suf : List Int) (k : Nat) (acc : K × K × K),
      calcLoop T m c suf k acc = .err .domainViolation →
      ∃ l, lookupLink m 1 = some (some l) ∧
        (M_PI / 2 < l.pitch ∨ M_PI / 2 < l.yaw) := by
  intro suf
  induction suf with
  | nil => intro k acc h; exact absurd h (by simp [calcLoop])
  | cons cid rest ih =>
    intro k acc h
    simp only [calcLoop] at h
    cases hl : lookupLink m cid with
    | none => rw [hl] at h; exact absurd h (by simp)
    | some v =>
      cases v with
      | none => rw [hl] at h; exact absurd h (by simp)
      | some l =>
        simp only [hl] at h
        by_cases hcond : cid = 1 ∧ (M_PI / 2 < l.pitch ∨ M_PI / 2 < l.yaw)
        · obtain ⟨rfl, hbad⟩ := hcond
          exact ⟨l, hl, hbad⟩
        · rw [if_neg hcond] at h
          by_cases hi : 0 < k
          · rw [if_pos hi] at h
            cases hcc : checkCollision T m c k (addDisp acc (displacement T l)) with
            | none => rw [hcc] at h; exact absurd h (by simp)
            | some b =>
              rw [hcc] at h
              cases b with
              | false => exact absurd h (by simp)
              | true => exact ih (k + 1) _ h
          · rw [if_neg hi] at h
            exact ih (k + 1) _ h

/-- C4 counterexample: the domain of link 1 claimed by the spec is
`[0, π/2] × [0, π/2]`, but the source only tests the upper bounds
(`pitch > M_PI/2 || yaw > M_PI/2`).  Pitch `-1` lies outside the claimed
domain, yet `calculatePosition` does not abort: it returns the normally
computed position, not the degenerate failure `(0,0,0)`. -/
theorem negative_pitch_not_rejected :
    lookupLink negM 1 = some (some (mkLink 1 1 (-1) 0 0 0)) ∧
    ¬ (0 : ℚ) ≤ (mkLink 1 1 (-1) 0 0 0).pitch ∧
    calculatePosition ratTrig negM 1 = .ok (-1, 0, 1) := by
  refine ⟨rfl, by norm_num [mkLink], ?_⟩
  norm_num [calculatePosition, countId, lookupLink, findVal, negM, mkLink, walkChain,
    calcLoop, checkCollision, collisionScan, sumDisplacements, addDisp, displacement,
    dist, ratTrig, M_PI]

/-- C4 amended: only the upper bounds are enforced.  Whenever the evaluated
chain contains id 1 and the stored link 1 has `pitch > π/2` or `yaw > π/2`,
the whole computation aborts with the degenerate tuple `(0,0,0)` — reported
as DomainViolation unless a collision among chain links aborts first —
regardless of the angles of the other links; and conversely a DomainViolation
report only ever arises from link 1 exceeding an upper bound, so links with
id ≠ 1 are never domain-checked.  Angles below the lower bound 0 are not
rejected (see the counterexample). -/
theorem domain_check_upper_bounds_only (T : TrigOps K) (m : Manipulator K)
    (id : Int) (ch : List Int) (l1 : MovableLink K) :
    (countId m id = true →
      walkChain m (m.links.length + 1) id [] = .ok ch →
      (1 : Int) ∈ ch →
      lookupLink m 1 = some (some l1) →
      (M_PI / 2 < l1.pitch ∨ M_PI / 2 < l1.yaw) →
      (calculatePosition T m id = .err .domainViolation ∨
        calculatePosition T m id = .err .collision) ∧
      returnedTuple (calculatePosition T m id) = some ((0 : K), 0, 0)) ∧
    (calculatePosition T m id = .err .domainViolation →
      ∃ l, lookupLink m 1 = some (some l) ∧
        (M_PI / 2 < l.pitch ∨ M_PI / 2 < l.yaw)) := by
  constructor
  · intro hid hwalk hmem h1 hbad
    have hres : ∀ cid ∈ ch.reverse, ∃ l, lookupLink m cid = some (some l) := by
      intro cid hcid
      rcases walkChain_resolvable m _ id [] ch hwalk cid (List.mem_reverse.1 hcid) with
        hmem2 | hres2
      · exact absurd hmem2 (by simp)
      · exact hres2
    have habort := calcLoop_aborts_of_bad_base T m ch.reverse hres l1 h1 hbad
      ch.reverse (fun x hx => hx) 0 (0, 0, 0) (List.mem_reverse.2 hmem)
    have hcalc : calculatePosition T m id = calcLoop T m ch.reverse ch.reverse 0 (0, 0, 0) := by
      simp only [calculatePosition, hid, if_true, hwalk]
    rw [hcalc]
    rcases habort with h | h <;> rw [h]
    · exact ⟨Or.inl rfl, rfl⟩
    · exact ⟨Or.inr rfl, rfl⟩
  · intro h
    simp only [calculatePosition] at h
    by_cases hid : countId m id = true
    · rw [if_pos hid] at h
      cases hw : walkChain m (m.links.length + 1) id [] with
      | ok ch2 =>
        rw [hw] at h
        exact calcLoop_dv_elim T m ch2.reverse ch2.reverse 0 (0, 0, 0) h
      | broken acc bad => rw [hw] at h; exact absurd h (by simp)
      | nullDeref => rw [hw] at h; exact absurd h (by simp)
      | outOfFuel => rw [hw] at h; exact absurd h (by simp)
    · rw [if_neg hid] at h
      exact absurd h (by simp)

/-- Witness for the amended C4: link 1 of `badM` has pitch `2 > π/2`, and the
computation aborts. -/
theorem domain_check_upper_bounds_only_witness :
    calculatePosition ratTrig badM 1 = .err .domainViolation ∨
    calculatePosition ratTrig badM 1 = .err .collision := by
  refine ((domain_check_upper_bounds_only ratTrig badM 1 [1]
    (mkLink 1 1 2 0 0 0)).1 (by decide) (by decide) (by simp) rfl ?_).1
  left
  norm_num [mkLink, M_PI]

/-- A collision abort of the kinematics loop exhibits two chain indices whose
recomputed root-summed positions lie within the threshold. -/
theorem calcLoop_collision_elim (T : TrigOps K) (m : Manipulator K) (c : List Int)
    (hres : ∀ cid ∈ c, ∃ l, lookupLink m cid = some (some l)) :
    ∀ (suf : List Int) (k : Nat) (acc : K × K × K),
      c.drop k = suf →
      sumDisplacements T m (c.take k) (0, 0, 0) = some acc →
      calcLoop T m c suf k acc = .err .collision →
      ∃ (i j : Nat) (pi pj : K × K × K), j < i ∧ i < c.length ∧
        sumDisplacements T m (c.take (i + 1)) (0, 0, 0) = some pi ∧
        sumDisplacements T m (c.take (j + 1)) (0, 0, 0) = some pj ∧
        dist T pi pj < 1 / 10 := by
  intro suf
  induction suf with
  | nil => intro k acc _ _ h; exact absurd h (by simp [calcLoop])
  | cons cid rest ih =>
    intro k acc hdrop hsum h
    obtain ⟨hk, hmem, htake, hdrop2⟩ := chain_step c cid rest k hdrop
    obtain ⟨l, hl⟩ := hres cid hmem
    have hsum2 : sumDisplacements T m (c.take (k + 1)) (0, 0, 0) =
        some (addDisp acc (displacement T l)) := by
      rw [htake, sumDisplacements_append T m _ _ _, hsum]
      show sumDisplacements T m [cid] acc = _
      simp only [sumDisplacements, hl]
    simp only [calcLoop, hl] at h
    by_cases hcond : cid = 1 ∧ (M_PI / 2 < l.pitch ∨ M_PI / 2 < l.yaw)
    · rw [if_pos hcond] at h
      exact absurd h (by simp)
    · rw [if_neg hcond] at h
      by_cases hi : 0 < k
      · rw [if_pos hi] at h
        cases hcc : checkCollision T m c k (addDisp acc (displacement T l)) with
        | none => rw [hcc] at h; exact absurd h (by simp)
        | some b =>
          rw [hcc] at h
          cases b with
          | false =>
            obtain ⟨j, hj, q, hq, hd⟩ := collisionScan_fails_elim T m c _ (List.range k) hcc
            exact ⟨k, j, addDisp acc (displacement T l), q, List.mem_range.1 hj, hk,
              hsum2, hq, hd⟩
          | true => exact ih (k + 1) _ hdrop2 hsum2 h
      · rw [if_neg hi] at h
        exact ih (k + 1) _ hdrop2 hsum2 h

/-- At the first chain index with a violating earlier partner — all links
resolving and the domain check passing — the kinematics loop aborts with the
collision error. -/
theorem calcLoop_collision_intro (T : TrigOps K) (m : Manipulator K) (c : List Int)
    (hres : ∀ cid ∈ c, ∃ l, lookupLink m cid = some (some l))
    (hdom : ∀ l, lookupLink m 1 = some (some l) →
      ¬ (M_PI / 2 < l.pitch ∨ M_PI / 2 < l.yaw))
    (i0 : Nat) (hi0 : i0 < c.length)
    (hviol : ∃ j < i0, ∃ pi pj : K × K × K,
      sumDisplacements T m (c.take (i0 + 1)) (0, 0, 0) = some pi ∧
      sumDisplacements T m (c.take (j + 1)) (0, 0, 0) = some pj ∧
      dist T pi pj < 1 / 10)
    (hmin : ∀ i, i < i0 → ∀ j, j < i → ∀ pi pj : K × K × K,
      sumDisplacements T m (c.take (i + 1)) (0, 0, 0) = some pi →
      sumDisplacements T m (c.take (j + 1)) (0, 0, 0) = some pj →
      ¬ dist T pi pj < 1 / 10) :
    ∀ (suf : List Int) (k : Nat) (acc : K × K × K),
      c.drop k = suf →
      sumDisplacements T m (c.take k) (0, 0, 0) = some acc →
      k ≤ i0 →
      calcLoop T m c suf k acc = .err .collision := by
  intro suf
  induction suf with
  | nil =>
    intro k acc hdrop _ hki
    have hlen : c.length ≤ k := List.drop_eq_nil_iff.1 hdrop
    omega
  | cons cid rest ih =>
    intro k acc hdrop hsum hki
    obtain ⟨hk, hmem, htake, hdrop2⟩ := chain_step c cid rest k hdrop
    obtain ⟨l, hl⟩ := hres cid hmem
    have hcond : ¬ (cid = 1 ∧ (M_PI / 2 < l.pitch ∨ M_PI / 2 < l.yaw)) := by
      rintro ⟨rfl, hbad⟩
      exact hdom l hl hbad
    have hsum2 : sumDisplacements T m (c.take (k + 1)) (0, 0, 0) =
        some (addDisp acc (displacement T l)) := by
      rw [htake, sumDisplacements_append T m _ _ _, hsum]
      show sumDisplacements T m [cid] acc = _
      simp only [sumDisplacements, hl]
    have hs : ∀ j ∈ List.range k,
        ∃ q, sumDisplacements T m (c.take (j + 1)) (0, 0, 0) = some q :=
      fun j _ => sumDisplacements_total T m _
        (fun c2 hc2 => hres c2 (List.take_subset _ _ hc2)) _
    simp only [calcLoop, hl]
    rw [if_neg hcond]
    by_cases hik : k = i0
    · subst hik
      obtain ⟨j, hj, pi, pj, hpi, hpj, hd⟩ := hviol
      have hi : 0 < k := by omega
      rw [if_pos hi]
      rw [hsum2] at hpi
      have hpi2 := Option.some.inj hpi
      subst hpi2
      have hscan := collisionScan_fails_intro T m c (addDisp acc (displacement T l))
        (List.range k) hs j (List.mem_range.2 hj) pj hpj hd
      simp only [checkCollision, hscan]
    · have hki2 : k + 1 ≤ i0 := by omega
      by_cases hi : 0 < k
      · rw [if_pos hi]
        have hscan : checkCollision T m c k (addDisp acc (displacement T l)) =
            some true := by
          rw [checkCollision]
          exact collisionScan_passes T m c _ (List.range k) hs
            fun j hj q hq => hmin k (by omega) j (List.mem_range.1 hj) _ q hsum2 hq
        rw [hscan]
        exact ih (k + 1) _ hdrop2 hsum2 hki2
      · rw [if_neg hi]
        exact ih (k + 1) _ hdrop2 hsum2 hki2

/-- C2: with the chain resolved and the domain check passing, the whole
computation aborts with the Collision failure — which returns the degenerate
tuple `(0,0,0)` — exactly when some chain index `i` and some earlier index
`j < i` have root-resummed positions within distance `0.1`; `j < i` forces
`i ≥ 1`, so the first chain index is never collision-checked.  Moreover (when
`sqrt 0 = 0`, as for the real square root) two chain links resolving to the
identical absolute position always produce the Collision failure. -/
theorem collision_abort_characterization (T : TrigOps K) (m : Manipulator K)
    (id : Int) (ch : List Int)
    (hid : countId m id = true)
    (hwalk : walkChain m (m.links.length + 1) id [] = .ok ch)
    (hdom : ∀ l, lookupLink m 1 = some (some l) →
      l.pitch ≤ M_PI / 2 ∧ l.yaw ≤ M_PI / 2) :
    (calculatePosition T m id = .err .collision ↔
      ∃ (i j : Nat) (pi pj : K × K × K), j < i ∧ i < ch.length ∧
        sumDisplacements T m (ch.reverse.take (i + 1)) (0, 0, 0) = some pi ∧
        sumDisplacements T m (ch.reverse.take (j + 1)) (0, 0, 0) = some pj ∧
        dist T pi pj < 1 / 10) ∧
    (T.sqrt 0 = 0 →
      ∀ (i j : Nat) (pi pj : K × K × K), j < i → i < ch.length →
        sumDisplacements T m (ch.reverse.take (i + 1)) (0, 0, 0) = some pi →
        sumDisplacements T m (ch.reverse.take (j + 1)) (0, 0, 0) = some pj →
        pi = pj →
        calculatePosition T m id = .err .collision) := by
  classical
  have hres : ∀ cid ∈ ch.reverse, ∃ l, lookupLink m cid = some (some l) := by
    intro cid hcid
    rcases walkChain_resolvable m _ id [] ch hwalk cid (List.mem_reverse.1 hcid) with
      hmem | hres2
    · exact absurd hmem (by simp)
    · exact hres2
  have hdom2 : ∀ l, lookupLink m 1 = some (some l) →
      ¬ (M_PI / 2 < l.pitch ∨ M_PI / 2 < l.yaw) := by
    intro l hl
    rintro (h | h)
    · exact absurd (hdom l hl).1 (not_le.2 h)
    · exact absurd (hdom l hl).2 (not_le.2 h)
  have hcalc : calculatePosition T m id =
      calcLoop T m ch.reverse ch.reverse 0 (0, 0, 0) := by
    simp only [calculatePosition, hid, if_true, hwalk]
  have hlen : ch.reverse.length = ch.length := List.length_reverse ch
  have hiff : calculatePosition T m id = .err .collision ↔
      ∃ (i j : Nat) (pi pj : K × K × K), j < i ∧ i < ch.length ∧
        sumDisplacements T m (ch.reverse.take (i + 1)) (0, 0, 0) = some pi ∧
        sumDisplacements T m (ch.reverse.take (j + 1)) (0, 0, 0) = some pj ∧
        dist T pi pj < 1 / 10 := by
    constructor
    · intro h
      rw [hcalc] at h
      obtain ⟨i, j, pi, pj, hji, hi, hpi, hpj, hd⟩ :=
        calcLoop_collision_elim T m ch.reverse hres ch.reverse 0 (0, 0, 0)
          (by simp) rfl h
      rw [hlen] at hi
      exact ⟨i, j, pi, pj, hji, hi, hpi, hpj, hd⟩
    · intro hex
      rw [hcalc]
      have hPex : ∃ i, i < ch.reverse.length ∧ ∃ j < i, ∃ pi pj : K × K × K,
          sumDisplacements T m (ch.reverse.take (i + 1)) (0, 0, 0) = some pi ∧
          sumDisplacements T m (ch.reverse.take (j + 1)) (0, 0, 0) = some pj ∧
          dist T pi pj < 1 / 10 := by
        obtain ⟨i, j, pi, pj, hji, hi, hpi, hpj, hd⟩ := hex
        exact ⟨i, by rw [hlen]; exact hi, j, hji, pi, pj, hpi, hpj, hd⟩
      obtain ⟨hi0len, hviol⟩ := Nat.find_spec hPex
      refine calcLoop_collision_intro T m ch.reverse hres hdom2 (Nat.find hPex)
        hi0len hviol ?_ ch.reverse 0 (0, 0, 0) (by simp) rfl (Nat.zero_le _)
      intro i hi j hj pi pj hpi hpj hd
      exact Nat.find_min hPex hi ⟨hi.trans hi0len, j, hj, pi, pj, hpi, hpj, hd⟩
  refine ⟨hiff, ?_⟩
  intro hsqrt i j pi pj hji hi hpi hpj heq
  subst heq
  have hd : dist T pi pi < 1 / 10 := by
    have hzero : (pi.1 - pi.1) ^ 2 + (pi.2.1 - pi.2.1) ^ 2 + (pi.2.2 - pi.2.2) ^ 2 =
        (0 : K) := by ring
    rw [dist, hzero, hsqrt]
    norm_num
  exact hiff.mpr ⟨i, j, pi, pi, hji, hi, hpi, hpj, hd⟩

/-- Witness for C2 at the spec §8 example: link 2 of `colM` has length 0, so
it resolves to exactly the position of link 1 and the computation aborts with the
Collision failure. -/
theorem collision_abort_characterization_witness :
    calculatePosition ratTrig colM 2 = .err .collision := by
  have hdom : ∀ l, lookupLink colM 1 = some (some l) →
      l.pitch ≤ M_PI / 2 ∧ l.yaw ≤ M_PI / 2 := by
    intro l hl
    have hl2 : lookupLink colM 1 = some (some (mkLink 1 1 1 0 0 0)) := rfl
    rw [hl2] at hl
    have := Option.some.inj (Option.some.inj hl)
    subst this
    exact ⟨by norm_num [mkLink, M_PI], by norm_num [mkLink, M_PI]⟩
  have hsum1 : sumDisplacements ratTrig colM (([2, 1] : List Int).reverse.take 1)
      (0, 0, 0) = some (1, 0, 1) := by
    norm_num [sumDisplacements, lookupLink, findVal, colM, mkLink, addDisp,
      displacement, ratTrig]
  have hsum2 : sumDisplacements ratTrig colM (([2, 1] : List Int).reverse.take 2)
      (0, 0, 0) = some (1, 0, 1) := by
    norm_num [sumDisplacements, lookupLink, findVal, colM, mkLink, addDisp,
      displacement, ratTrig]
  exact (collision_abort_characterization ratTrig colM 2 [2, 1] (by decide)
    (by decide) hdom).2 rfl 1 0 (1, 0, 1) (1, 0, 1) (by omega) (by norm_num)
    hsum2 hsum1 rfl

end RobotArm
